import Mathlib

/-!
Verification of the Telemetry & Handover Aggregation Core of the
`fekt-kpm` ns-3 scenario scripts, against its natural-language design
specification.  The reference implementation is
`src/project/lte-voip-simulation.cc`; the definitions below are shallow
embeddings of the flow-attribution lambda, the `PeriodicStatsUpdate`
callback (delta engine, per-entity aggregation, time-series bookkeeping,
handover interval counters), the handover trace callbacks, and the
closest-eNodeB argmin loop of `main`.

Machine integers: ns-3 `FlowMonitor` counters are read into `uint64_t`
locals and subtracted in `uint64_t` arithmetic, so counter values are
`Nat` and every subtraction of counters goes through `sub64`, subtraction
modulo `2 ^ 64`.  `double` quantities (throughput, latency, jitter, loss
rate, simulated seconds) are modelled as `ℚ`; `ns3::Time` values are
modelled by their value in seconds as `ℚ`.
-/

/-- `Ipv4FlowClassifier::FiveTuple`: addresses and ports are numeric
identifiers; `protocol` is the IP protocol number (17 = UDP). -/
structure FiveTuple where
  sourceAddress : Nat
  sourcePort : Nat
  destinationAddress : Nat
  destinationPort : Nat
  protocol : Nat
  deriving DecidableEq, Repr

/-- The flow-to-UE mapping rule used by the initialization lambda
(`lte-voip-simulation.cc:364-392`) and by `PeriodicStatsUpdate`
(`lte-voip-simulation.cc:821-825`):
`if (destPort >= basePort && destPort < basePort + numUe) ueIndex = destPort - basePort`.
The source hard-codes `basePort = 5000`; the spec contract
`Attribute(tuple, knownEntityCount, basePort)` exposes the base port as a
parameter, which the scripts always instantiate with 5000. -/
def mapFlowToUeIndex (t : FiveTuple) (knownEntityCount basePort : Nat) : Option Nat :=
  if basePort ≤ t.destinationPort ∧ t.destinationPort < basePort + knownEntityCount then
    some (t.destinationPort - basePort)
  else
    none

/-- Subtraction of `uint64_t` counters: `a - b` computed modulo `2 ^ 64`,
exactly as C++ unsigned arithmetic does (`deltaBytes = currentRxBytes -
g_previousRxBytes[...]` and friends). -/
def sub64 (a b : Nat) : Nat :=
  (a + (2 ^ 64 - b % 2 ^ 64)) % 2 ^ 64

/-- One row of the `FlowMonitor::GetFlowStats()` snapshot together with its
classifier tuple: the cumulative counters `rxBytes`, `txPackets`,
`rxPackets`, `delaySum`, `jitterSum` read by `PeriodicStatsUpdate`
(`delaySum`/`jitterSum` are `ns3::Time`, modelled in seconds). -/
structure FlowEntry where
  flowId : Nat
  tuple : FiveTuple
  rxBytes : Nat
  txPackets : Nat
  rxPackets : Nat
  delaySum : ℚ
  jitterSum : ℚ
  deriving DecidableEq, Repr

/-- The previous-counters tables `g_previousRxBytes`, `g_previousRxPackets`,
`g_previousDelaySum`, `g_previousJitterSum`
(`lte-voip-simulation.cc:136-139`).  They are `std::map`s read through
`operator[]`, which value-initializes an absent entry to zero, so each
table is modelled as a total function with default value 0. -/
structure StatsState where
  g_previousRxBytes : Nat → Nat
  g_previousRxPackets : Nat → Nat
  g_previousDelaySum : Nat → ℚ
  g_previousJitterSum : Nat → ℚ

/-- The state of the tables before any flow has been observed: all entries
absent, i.e. zero under `operator[]` semantics. -/
def zeroStatsState : StatsState :=
  ⟨fun _ => 0, fun _ => 0, fun _ => 0, fun _ => 0⟩

/-- The four interval deltas `PeriodicStatsUpdate` computes for one flow
from the current cumulative counters and the previous-counters tables
(`lte-voip-simulation.cc:828-861`): `deltaBytes`, `deltaPackets`,
`deltaDelaySum`, `deltaJitterSum`.  Byte and packet deltas use `uint64_t`
subtraction; the `Time` deltas use signed subtraction. -/
def flowDeltas (st : StatsState) (f : FlowEntry) : Nat × Nat × ℚ × ℚ :=
  (sub64 f.rxBytes (st.g_previousRxBytes f.flowId),
   sub64 f.rxPackets (st.g_previousRxPackets f.flowId),
   f.delaySum - st.g_previousDelaySum f.flowId,
   f.jitterSum - st.g_previousJitterSum f.flowId)

/-- The per-flow packet-loss rate of `PeriodicStatsUpdate`
(`lte-voip-simulation.cc:835-840`): computed from the cumulative
counters, `(txPkts - rxPkts) / txPkts * 100` when `txPkts > 0`, else 0;
the subtraction is `uint64_t` arithmetic. -/
def lossOfFlow (f : FlowEntry) : ℚ :=
  if 0 < f.txPackets then
    ((sub64 f.txPackets f.rxPackets : ℚ) / (f.txPackets : ℚ)) * 100
  else
    0

/-- The per-tick accumulators of `PeriodicStatsUpdate`
(`lte-voip-simulation.cc:805-810`): the per-UE vectors
`ueThroughputKbps`, `uePacketLossRate`, `ueJitterMs` (modelled as total
functions, initialized to 0 for every index) and the running
`totalLatencySum` / `totalRxPackets`. -/
structure TickAcc where
  ueThroughputKbps : Nat → ℚ
  uePacketLossRate : Nat → ℚ
  ueJitterMs : Nat → ℚ
  totalLatencySum : ℚ
  totalRxPackets : Nat

/-- The zero-initialized accumulators at the start of a tick. -/
def initAcc : TickAcc :=
  ⟨fun _ => 0, fun _ => 0, fun _ => 0, 0, 0⟩

/-- The body of the per-flow loop of `PeriodicStatsUpdate`
(`lte-voip-simulation.cc:813-870`): skip non-UDP flows, attribute by the
destination-port range `[5000, 5000 + numUe)`, compute the interval
deltas, unconditionally overwrite the previous-counters tables with the
current counters, add the flow's interval throughput and jitter to its
UE's entry, overwrite the UE's packet-loss entry with this flow's
cumulative loss rate, and accumulate the latency sums. -/
def processFlow (numUe : Nat) (statsInterval : ℚ)
    (p : StatsState × TickAcc) (f : FlowEntry) : StatsState × TickAcc :=
  let st := p.1
  let acc := p.2
  if f.tuple.protocol ≠ 17 then
    (st, acc)
  else if 5000 ≤ f.tuple.destinationPort ∧ f.tuple.destinationPort < 5000 + numUe then
    let ueIndex := f.tuple.destinationPort - 5000
    let d := flowDeltas st f
    let deltaBytes := d.1
    let deltaPackets := d.2.1
    let deltaDelaySum := d.2.2.1
    let deltaJitterSum := d.2.2.2
    let st1 : StatsState :=
      { g_previousRxBytes := Function.update st.g_previousRxBytes f.flowId f.rxBytes
        g_previousRxPackets := Function.update st.g_previousRxPackets f.flowId f.rxPackets
        g_previousDelaySum := Function.update st.g_previousDelaySum f.flowId f.delaySum
        g_previousJitterSum := Function.update st.g_previousJitterSum f.flowId f.jitterSum }
    let flowThroughputKbps : ℚ := (deltaBytes : ℚ) * 8 / 1000 / statsInterval
    let acc1 :=
      { acc with
        ueThroughputKbps :=
          Function.update acc.ueThroughputKbps ueIndex
            (acc.ueThroughputKbps ueIndex + flowThroughputKbps) }
    let acc2 :=
      { acc1 with
        uePacketLossRate := Function.update acc1.uePacketLossRate ueIndex (lossOfFlow f) }
    let acc3 :=
      if 0 < deltaPackets then
        { acc2 with
          totalLatencySum :=
            acc2.totalLatencySum + deltaDelaySum / (deltaPackets : ℚ) * 1000 * (deltaPackets : ℚ)
          totalRxPackets := acc2.totalRxPackets + deltaPackets }
      else
        acc2
    let flowJitterMs : ℚ :=
      if 1 < deltaPackets then deltaJitterSum / ((deltaPackets : ℚ) - 1) * 1000 else 0
    let acc4 :=
      { acc3 with
        ueJitterMs :=
          Function.update acc3.ueJitterMs ueIndex (acc3.ueJitterMs ueIndex + flowJitterMs) }
    (st1, acc4)
  else
    (st, acc)

/-- The per-flow loop of one `PeriodicStatsUpdate` tick, folded over the
`GetFlowStats()` snapshot (a `std::map`, iterated in ascending `FlowId`
order, so the snapshot is a list ordered by flow id). -/
def processFlows (numUe : Nat) (statsInterval : ℚ)
    (st : StatsState) (stats : List FlowEntry) : StatsState × TickAcc :=
  stats.foldl (processFlow numUe statsInterval) (st, initAcc)

/-- Decidable form of the condition under which the per-flow loop of
`PeriodicStatsUpdate` charges a flow to UE `u`: UDP protocol, destination
port in `[5000, 5000 + numUe)`, and `destPort - 5000 = u`. -/
def attributedTo (numUe u : Nat) (f : FlowEntry) : Bool :=
  f.tuple.protocol = 17 && 5000 ≤ f.tuple.destinationPort &&
    f.tuple.destinationPort < 5000 + numUe && f.tuple.destinationPort - 5000 = u

/-- Stated from the spec's words (for the C3 refinement): the per-entity
interval throughput as the spec defines it, the sum over the entity's
attributed flows of `deltaReceivedBytes * 8 / 1000 / tickDurationSeconds`,
with each delta taken against the previous-counters table as it stood at
the start of the tick. -/
def specThroughputSum (numUe : Nat) (statsInterval : ℚ) (st : StatsState)
    (stats : List FlowEntry) (u : Nat) : ℚ :=
  ((stats.filter (attributedTo numUe u)).map
    (fun f => (sub64 f.rxBytes (st.g_previousRxBytes f.flowId) : ℚ) * 8 / 1000 / statsInterval)).sum

/-- The flow snapshot of the C3 end-to-end scenario at tick `k`: one UDP
flow to port 5000 whose cumulative received bytes grow by 1000 bytes per
tick. -/
def c3Entry (k : Nat) : FlowEntry :=
  ⟨1, ⟨7, 40000, 1, 5000, 17⟩, 1000 * k, 0, 0, 0, 0⟩

/-- The C3 end-to-end scenario: `numUe = 5`, `statsInterval = 1`, one flow
with a constant 1000-byte `rxBytes` increment per tick; `c3Run k` is the
previous-counters state after `k` ticks paired with the accumulators of
tick `k`. -/
def c3Run : Nat → StatsState × TickAcc
  | 0 => (zeroStatsState, initAcc)
  | k + 1 => processFlows 5 1 (c3Run k).1 [c3Entry (k + 1)]

/-- A 3D position (`ns3::Vector`), as used by the mobility models. -/
def Point : Type := ℚ × ℚ × ℚ

/-- Squared Euclidean distance between two positions.  The source compares
`CalculateDistance` values (Euclidean distances); comparisons of
distances agree with comparisons of squared distances, which keeps the
model inside `ℚ`. -/
def dist2 (p q : Point) : ℚ :=
  (p.1 - q.1) * (p.1 - q.1) + (p.2.1 - q.2.1) * (p.2.1 - q.2.1) +
    (p.2.2 - q.2.2) * (p.2.2 - q.2.2)

/-- The closest-eNodeB argmin loop of `main`
(`lte-voip-simulation.cc:324-336`): scan the distances in index order,
keeping the strictly smaller one (`if (dist < minDistance)`), so the first
index achieving the minimum wins.  The accumulator `none` models the
`std::numeric_limits<double>::max()` sentinel, `j` is the loop counter. -/
def scanMin : List ℚ → Nat → Option (ℚ × Nat) → Option (ℚ × Nat)
  | [], _, acc => acc
  | d :: rest, j, none => scanMin rest (j + 1) (some (d, j))
  | d :: rest, j, some (m, i) =>
    if d < m then scanMin rest (j + 1) (some (d, j)) else scanMin rest (j + 1) (some (m, i))

/-- The `(minDistance, closestEnb)` pair computed by the attachment loop,
over the list of (squared) distances from a UE to each eNodeB. -/
def closestEnb (dists : List ℚ) : Option (ℚ × Nat) :=
  scanMin dists 0 none

/-- Modelled from the spec: the Handover Decision Engine of spec §4.4
(`Evaluate(entityId, position, cells, attachment, distanceThresholdMeters)`).
The periodic distance-threshold handover check it describes (the "manual
handover check" of spec §9) is not among the source files provided; in
`lte-voip-simulation.cc` handover during the run is delegated to the
built-in `A3RsrpHandoverAlgorithm` and the closest-cell argmin appears
only in the initial attachment loop, which this definition reuses
(`closestEnb`).  Distances are compared squared, so the threshold enters
as `threshold * threshold`; the trigger condition is the spec's
`bestCell != currentCell AND minDistance < distanceThresholdMeters`. -/
def Evaluate (entityId : Nat) (position : Point) (cells : List Point)
    (attachment : Nat → Nat) (distanceThresholdMeters : ℚ) : Bool × Nat :=
  match closestEnb (cells.map (dist2 position)) with
  | none => (false, 0)
  | some (minDistance, bestCell) =>
    (decide (bestCell ≠ attachment entityId) &&
      decide (minDistance < distanceThresholdMeters * distanceThresholdMeters),
     bestCell)

/-- A handover event delivered to one of the three trace callbacks
(`lte-voip-simulation.cc:180-214`). -/
inductive HandoverEvent where
  | handoverStart : HandoverEvent
  | handoverSuccess : HandoverEvent
  | handoverFailure : HandoverEvent
  deriving DecidableEq, Repr

/-- The global telemetry state of the script: the simulated clock
`g_currentTime`, the interval handover counters, and the time-series
vectors (`lte-voip-simulation.cc:126-149`).  The per-UE plot vectors are
indexed functions (the source sizes them to `numUe` at startup). -/
structure SimState where
  g_currentTime : ℚ
  g_handoverStartCount : Nat
  g_handoverSuccessCount : Nat
  g_handoverFailureCount : Nat
  g_handoverStartPlot : List Nat
  g_handoverSuccessPlot : List Nat
  g_handoverFailurePlot : List Nat
  g_timePlot : List ℚ
  g_avgLatencyPlot : List ℚ
  g_avgThroughputPlot : List ℚ
  g_ueThroughputPlot : Nat → List ℚ
  g_uePacketLossPlot : Nat → List ℚ
  g_ueJitterPlot : Nat → List ℚ
  flowState : StatsState

/-- The telemetry state at simulation start: clock at 0, all counters 0,
all time-series vectors empty, no flow observed yet. -/
def initialSimState : SimState :=
  { g_currentTime := 0
    g_handoverStartCount := 0
    g_handoverSuccessCount := 0
    g_handoverFailureCount := 0
    g_handoverStartPlot := []
    g_handoverSuccessPlot := []
    g_handoverFailurePlot := []
    g_timePlot := []
    g_avgLatencyPlot := []
    g_avgThroughputPlot := []
    g_ueThroughputPlot := fun _ => []
    g_uePacketLossPlot := fun _ => []
    g_ueJitterPlot := fun _ => []
    flowState := zeroStatsState }

/-- The handover trace callbacks `HandoverStartCallback`,
`HandoverSuccessCallback`, `HandoverFailureCallback`
(`lte-voip-simulation.cc:180-214`): each increments its interval
counter. -/
def HandoverCallback (st : SimState) (e : HandoverEvent) : SimState :=
  match e with
  | .handoverStart => { st with g_handoverStartCount := st.g_handoverStartCount + 1 }
  | .handoverSuccess => { st with g_handoverSuccessCount := st.g_handoverSuccessCount + 1 }
  | .handoverFailure => { st with g_handoverFailureCount := st.g_handoverFailureCount + 1 }

/-- Delivery of a batch of handover events between two telemetry ticks. -/
def applyHandoverEvents (st : SimState) (events : List HandoverEvent) : SimState :=
  events.foldl HandoverCallback st

/-- One `PeriodicStatsUpdate` tick (`lte-voip-simulation.cc:782-917`):
advance `g_currentTime` by `statsInterval`, append the interval handover
counters to their plots and reset them, run the per-flow loop over the
snapshot, compute the aggregate/average metrics, and append one entry to
every time-series vector. -/
def PeriodicStatsUpdate (numUe : Nat) (statsInterval : ℚ)
    (st : SimState) (stats : List FlowEntry) : SimState :=
  let t := st.g_currentTime + statsInterval
  let r := processFlows numUe statsInterval st.flowState stats
  let acc := r.2
  let aggregateThroughputKbps := ((List.range numUe).map acc.ueThroughputKbps).sum
  let avgLatencyMs : ℚ :=
    if 0 < acc.totalRxPackets then acc.totalLatencySum / (acc.totalRxPackets : ℚ) else 0
  let avgThroughputKbps : ℚ :=
    if 0 < numUe then aggregateThroughputKbps / (numUe : ℚ) else 0
  { g_currentTime := t
    g_handoverStartCount := 0
    g_handoverSuccessCount := 0
    g_handoverFailureCount := 0
    g_handoverStartPlot := st.g_handoverStartPlot ++ [st.g_handoverStartCount]
    g_handoverSuccessPlot := st.g_handoverSuccessPlot ++ [st.g_handoverSuccessCount]
    g_handoverFailurePlot := st.g_handoverFailurePlot ++ [st.g_handoverFailureCount]
    g_timePlot := st.g_timePlot ++ [t]
    g_avgLatencyPlot := st.g_avgLatencyPlot ++ [avgLatencyMs]
    g_avgThroughputPlot := st.g_avgThroughputPlot ++ [avgThroughputKbps]
    g_ueThroughputPlot := fun i =>
      if i < numUe then st.g_ueThroughputPlot i ++ [acc.ueThroughputKbps i]
      else st.g_ueThroughputPlot i
    g_uePacketLossPlot := fun i =>
      if i < numUe then st.g_uePacketLossPlot i ++ [acc.uePacketLossRate i]
      else st.g_uePacketLossPlot i
    g_ueJitterPlot := fun i =>
      if i < numUe then st.g_ueJitterPlot i ++ [acc.ueJitterMs i]
      else st.g_ueJitterPlot i
    flowState := r.1 }

/-- The self-rescheduling telemetry loop: a tick scheduled for
`g_currentTime + statsInterval` runs only if that time does not exceed
`simTime` (`Simulator::Stop(Seconds(params.simTime))` for the first tick,
and the guard `g_currentTime + params.statsInterval <= params.simTime` at
`lte-voip-simulation.cc:909-916` for every rescheduling).  Each list
element carries the handover events delivered since the previous tick and
the flow snapshot the tick reads. -/
def RunPeriodicStats (numUe : Nat) (statsInterval simTime : ℚ) :
    SimState → List (List HandoverEvent × List FlowEntry) → SimState
  | st, [] => st
  | st, (events, stats) :: rest =>
    if st.g_currentTime + statsInterval ≤ simTime then
      RunPeriodicStats numUe statsInterval simTime
        (PeriodicStatsUpdate numUe statsInterval (applyHandoverEvents st events) stats) rest
    else
      st

/-- An unguarded sequence of executed telemetry ticks (for the
per-interval handover-count accounting of C9, which quantifies over the
ticks that ran). -/
def runTicks (numUe : Nat) (statsInterval : ℚ)
    (st : SimState) (inputs : List (List HandoverEvent × List FlowEntry)) : SimState :=
  inputs.foldl
    (fun s p => PeriodicStatsUpdate numUe statsInterval (applyHandoverEvents s p.1) p.2) st

/-- Helper for C9: the sequence of recorded interval counts for event `e`,
starting from a pending counter value `c` carried into the first tick. -/
def bucketCounts (e : HandoverEvent) :
    Nat → List (List HandoverEvent × List FlowEntry) → List Nat
  | _, [] => []
  | c, p :: rest => (c + p.1.count e) :: bucketCounts e 0 rest

/-- The length-and-timestamps invariant of the time series after `n`
completed ticks (for C10): the clock reads `n * statsInterval`, every
time-series vector has exactly `n` entries, and the timestamp vector is
`statsInterval, 2 * statsInterval, ..., n * statsInterval`. -/
def SeriesInv (numUe : Nat) (statsInterval : ℚ) (n : Nat) (st : SimState) : Prop :=
  st.g_currentTime = (n : ℚ) * statsInterval ∧
  st.g_timePlot = (List.range n).map (fun k : Nat => ((k : ℚ) + 1) * statsInterval) ∧
  st.g_timePlot.length = n ∧
  st.g_avgLatencyPlot.length = n ∧
  st.g_avgThroughputPlot.length = n ∧
  st.g_handoverStartPlot.length = n ∧
  st.g_handoverSuccessPlot.length = n ∧
  st.g_handoverFailurePlot.length = n ∧
  (∀ i, i < numUe →
    (st.g_ueThroughputPlot i).length = n ∧
    (st.g_uePacketLossPlot i).length = n ∧
    (st.g_ueJitterPlot i).length = n)

/-!  Theorems. -/

theorem sub64_self (a : Nat) : sub64 a a = 0 := by
  unfold sub64
  have h : a % 2 ^ 64 ≤ a := Nat.mod_le a (2 ^ 64)
  have hlt : a % 2 ^ 64 < 2 ^ 64 := Nat.mod_lt a (by norm_num)
  omega

theorem sub64_zero (a : Nat) (h : a < 2 ^ 64) : sub64 a 0 = a := by
  unfold sub64
  omega

theorem sub64_of_le (a b : Nat) (hb : b ≤ a) (ha : a < 2 ^ 64) :
    sub64 a b = a - b := by
  unfold sub64
  have hblt : b < 2 ^ 64 := lt_of_le_of_lt hb ha
  have hbm : b % 2 ^ 64 = b := Nat.mod_eq_of_lt hblt
  rw [hbm]
  omega

/-- C1.  The port-range attribution rule maps a tuple to entity
`destinationPort - basePort` exactly when `0 ≤ destinationPort - basePort <
knownEntityCount` (as a signed comparison, matching the spec's
`candidate := tuple.destinationPort - basePort`); with `basePort = 5000`
and `entityCount = 5` the port 5003 is attributed to entity 3, and ports
outside `[5000, 5005)` are not attributed by the port rule. -/
theorem attribution_port_rule :
    (∀ (t : FiveTuple) (n b e : Nat),
      mapFlowToUeIndex t n b = some e ↔
        (0 ≤ (t.destinationPort : ℤ) - (b : ℤ) ∧
          (t.destinationPort : ℤ) - (b : ℤ) < (n : ℤ) ∧
          (e : ℤ) = (t.destinationPort : ℤ) - (b : ℤ))) ∧
    mapFlowToUeIndex ⟨1, 49153, 2, 5003, 17⟩ 5 5000 = some 3 ∧
    mapFlowToUeIndex ⟨1, 49153, 2, 4999, 17⟩ 5 5000 = none ∧
    mapFlowToUeIndex ⟨1, 49153, 2, 5005, 17⟩ 5 5000 = none := by
  refine ⟨?_, by decide, by decide, by decide⟩
  intro t n b e
  unfold mapFlowToUeIndex
  by_cases h : b ≤ t.destinationPort ∧ t.destinationPort < b + n
  · simp only [if_pos h, Option.some.injEq]
    omega
  · simp only [if_neg h]
    constructor
    · intro hc
      exact absurd hc (by simp)
    · intro hc
      exfalso
      omega

set_option maxRecDepth 4000 in
/-- C5.  After `PeriodicStatsUpdate` processes an attributed UDP flow, the
previous-counters tables hold exactly the flow's current cumulative
counters (the update is unconditional, after every delta computation), so
a second tick presenting identical current counters computes an all-zero
delta for that flow. -/
theorem delta_second_tick_zero (numUe : Nat) (statsInterval : ℚ)
    (st : StatsState) (acc : TickAcc) (f : FlowEntry)
    (h17 : f.tuple.protocol = 17)
    (hlo : 5000 ≤ f.tuple.destinationPort)
    (hhi : f.tuple.destinationPort < 5000 + numUe) :
    ((processFlow numUe statsInterval (st, acc) f).1.g_previousRxBytes f.flowId = f.rxBytes ∧
      (processFlow numUe statsInterval (st, acc) f).1.g_previousRxPackets f.flowId = f.rxPackets ∧
      (processFlow numUe statsInterval (st, acc) f).1.g_previousDelaySum f.flowId = f.delaySum ∧
      (processFlow numUe statsInterval (st, acc) f).1.g_previousJitterSum f.flowId = f.jitterSum) ∧
    flowDeltas (processFlow numUe statsInterval (st, acc) f).1 f = (0, 0, 0, 0) := by
  unfold processFlow
  rw [if_neg (not_not_intro h17), if_pos ⟨hlo, hhi⟩]
  simp [flowDeltas, Function.update_same, sub64_self, sub_self]

/-- Witness for C5 at a concrete attributed flow. -/
theorem delta_second_tick_zero_witness :
    ((processFlow 5 1 (zeroStatsState, initAcc)
        ⟨1, ⟨7, 40000, 1, 5000, 17⟩, 1000, 50, 40, 2, 1⟩).1.g_previousRxBytes 1 = 1000 ∧
      (processFlow 5 1 (zeroStatsState, initAcc)
        ⟨1, ⟨7, 40000, 1, 5000, 17⟩, 1000, 50, 40, 2, 1⟩).1.g_previousRxPackets 1 = 40 ∧
      (processFlow 5 1 (zeroStatsState, initAcc)
        ⟨1, ⟨7, 40000, 1, 5000, 17⟩, 1000, 50, 40, 2, 1⟩).1.g_previousDelaySum 1 = 2 ∧
      (processFlow 5 1 (zeroStatsState, initAcc)
        ⟨1, ⟨7, 40000, 1, 5000, 17⟩, 1000, 50, 40, 2, 1⟩).1.g_previousJitterSum 1 = 1) ∧
    flowDeltas (processFlow 5 1 (zeroStatsState, initAcc)
        ⟨1, ⟨7, 40000, 1, 5000, 17⟩, 1000, 50, 40, 2, 1⟩).1
      ⟨1, ⟨7, 40000, 1, 5000, 17⟩, 1000, 50, 40, 2, 1⟩ = (0, 0, 0, 0) :=
  delta_second_tick_zero 5 1 zeroStatsState initAcc
    ⟨1, ⟨7, 40000, 1, 5000, 17⟩, 1000, 50, 40, 2, 1⟩ rfl (by decide) (by decide)

/-- C6 counterexample.  A flow first observed with 1000 cumulative received
bytes yields a first-tick `deltaBytes` of 1000, not 0: an absent
previous-counters entry is treated as zero, so the first observation's
delta equals the current cumulative counters rather than being zero. -/
theorem first_observation_nonzero_delta :
    flowDeltas zeroStatsState ⟨1, ⟨7, 40000, 1, 5000, 17⟩, 1000, 0, 0, 0, 0⟩ =
      (1000, 0, 0, 0) ∧ (1000 : Nat) ≠ 0 := by
  constructor
  · simp [flowDeltas, zeroStatsState, sub64_zero]
  · decide

/-- C6 (amended).  On the first tick at which a flow is observed the
previous-counters entry is absent and treated as all-zero, so the
computed delta equals the flow's current cumulative counters (hence it is
zero only when those counters are still zero). -/
theorem first_observation_delta_is_cumulative (f : FlowEntry)
    (hb : f.rxBytes < 2 ^ 64) (hp : f.rxPackets < 2 ^ 64) :
    flowDeltas zeroStatsState f = (f.rxBytes, f.rxPackets, f.delaySum, f.jitterSum) := by
  simp [flowDeltas, zeroStatsState, sub64_zero _ hb, sub64_zero _ hp]

/-- Witness for the amended C6 at a concrete first-observed flow. -/
theorem first_observation_delta_is_cumulative_witness :
    flowDeltas zeroStatsState ⟨1, ⟨7, 40000, 1, 5000, 17⟩, 1000, 50, 40, 2, 1⟩ =
      (1000, 40, 2, 1) :=
  first_observation_delta_is_cumulative ⟨1, ⟨7, 40000, 1, 5000, 17⟩, 1000, 50, 40, 2, 1⟩
    (by decide) (by decide)

theorem processFlow_not_udp (numUe : Nat) (I : ℚ) (p : StatsState × TickAcc)
    (f : FlowEntry) (h : f.tuple.protocol ≠ 17) :
    processFlow numUe I p f = p := by
  unfold processFlow
  rw [if_pos h]

theorem processFlow_out_of_range (numUe : Nat) (I : ℚ) (p : StatsState × TickAcc)
    (f : FlowEntry) (h17 : f.tuple.protocol = 17)
    (h : ¬(5000 ≤ f.tuple.destinationPort ∧ f.tuple.destinationPort < 5000 + numUe)) :
    processFlow numUe I p f = p := by
  unfold processFlow
  rw [if_neg (not_not_intro h17), if_neg h]

set_option maxRecDepth 4000 in
theorem processFlow_attributed (numUe : Nat) (I : ℚ) (st : StatsState) (acc : TickAcc)
    (f : FlowEntry) (h17 : f.tuple.protocol = 17)
    (hlo : 5000 ≤ f.tuple.destinationPort)
    (hhi : f.tuple.destinationPort < 5000 + numUe) :
    processFlow numUe I (st, acc) f =
      ({ g_previousRxBytes := Function.update st.g_previousRxBytes f.flowId f.rxBytes
         g_previousRxPackets := Function.update st.g_previousRxPackets f.flowId f.rxPackets
         g_previousDelaySum := Function.update st.g_previousDelaySum f.flowId f.delaySum
         g_previousJitterSum := Function.update st.g_previousJitterSum f.flowId f.jitterSum },
       { ueThroughputKbps :=
           Function.update acc.ueThroughputKbps (f.tuple.destinationPort - 5000)
             (acc.ueThroughputKbps (f.tuple.destinationPort - 5000) +
               ((flowDeltas st f).1 : ℚ) * 8 / 1000 / I)
         uePacketLossRate :=
           Function.update acc.uePacketLossRate (f.tuple.destinationPort - 5000) (lossOfFlow f)
         ueJitterMs :=
           Function.update acc.ueJitterMs (f.tuple.destinationPort - 5000)
             (acc.ueJitterMs (f.tuple.destinationPort - 5000) +
               (if 1 < (flowDeltas st f).2.1 then
                  (flowDeltas st f).2.2.2 / (((flowDeltas st f).2.1 : ℚ) - 1) * 1000
                else 0))
         totalLatencySum :=
           if 0 < (flowDeltas st f).2.1 then
             acc.totalLatencySum +
               (flowDeltas st f).2.2.1 / ((flowDeltas st f).2.1 : ℚ) * 1000 *
                 ((flowDeltas st f).2.1 : ℚ)
           else acc.totalLatencySum
         totalRxPackets :=
           if 0 < (flowDeltas st f).2.1 then acc.totalRxPackets + (flowDeltas st f).2.1
           else acc.totalRxPackets }) := by
  unfold processFlow
  rw [if_neg (not_not_intro h17), if_pos ⟨hlo, hhi⟩]
  dsimp only
  split_ifs <;> rfl

theorem processFlow_thr (numUe : Nat) (I : ℚ) (p : StatsState × TickAcc)
    (f : FlowEntry) (u : Nat) :
    (processFlow numUe I p f).2.ueThroughputKbps u =
      p.2.ueThroughputKbps u +
        (if attributedTo numUe u f then ((flowDeltas p.1 f).1 : ℚ) * 8 / 1000 / I else 0) := by
  obtain ⟨st, acc⟩ := p
  by_cases h17 : f.tuple.protocol = 17
  · by_cases hport : 5000 ≤ f.tuple.destinationPort ∧ f.tuple.destinationPort < 5000 + numUe
    · rw [processFlow_attributed numUe I st acc f h17 hport.1 hport.2]
      dsimp only
      by_cases hu : f.tuple.destinationPort - 5000 = u
      · have hA : attributedTo numUe u f = true := by
          simp [attributedTo, h17, hport.1, hport.2, hu]
        rw [if_pos hA, ← hu, Function.update_same]
      · have hA : ¬ (attributedTo numUe u f = true) := by
          simp [attributedTo, hu]
        rw [if_neg hA, Function.update_noteq (fun h => hu (h.symm)), add_zero]
    · rw [processFlow_out_of_range numUe I (st, acc) f h17 hport]
      have hA : ¬ (attributedTo numUe u f = true) := by
        simp only [attributedTo, Bool.and_eq_true, decide_eq_true_eq]
        rintro ⟨⟨⟨_, h1⟩, h2⟩, _⟩
        exact hport ⟨h1, h2⟩
      rw [if_neg hA, add_zero]
  · rw [processFlow_not_udp numUe I (st, acc) f h17]
    have hA : ¬ (attributedTo numUe u f = true) := by
      simp [attributedTo, h17]
    rw [if_neg hA, add_zero]

theorem processFlow_loss (numUe : Nat) (I : ℚ) (p : StatsState × TickAcc)
    (f : FlowEntry) (u : Nat) :
    (processFlow numUe I p f).2.uePacketLossRate u =
      if attributedTo numUe u f then lossOfFlow f else p.2.uePacketLossRate u := by
  obtain ⟨st, acc⟩ := p
  by_cases h17 : f.tuple.protocol = 17
  · by_cases hport : 5000 ≤ f.tuple.destinationPort ∧ f.tuple.destinationPort < 5000 + numUe
    · rw [processFlow_attributed numUe I st acc f h17 hport.1 hport.2]
      dsimp only
      by_cases hu : f.tuple.destinationPort - 5000 = u
      · have hA : attributedTo numUe u f = true := by
          simp [attributedTo, h17, hport.1, hport.2, hu]
        rw [if_pos hA, ← hu, Function.update_same]
      · have hA : ¬ (attributedTo numUe u f = true) := by
          simp [attributedTo, hu]
        rw [if_neg hA, Function.update_noteq (fun h => hu (h.symm))]
    · rw [processFlow_out_of_range numUe I (st, acc) f h17 hport]
      have hA : ¬ (attributedTo numUe u f = true) := by
        simp only [attributedTo, Bool.and_eq_true, decide_eq_true_eq]
        rintro ⟨⟨⟨_, h1⟩, h2⟩, _⟩
        exact hport ⟨h1, h2⟩
      rw [if_neg hA]
  · rw [processFlow_not_udp numUe I (st, acc) f h17]
    have hA : ¬ (attributedTo numUe u f = true) := by
      simp [attributedTo, h17]
    rw [if_neg hA]

theorem processFlow_prevRxBytes_other (numUe : Nat) (I : ℚ) (p : StatsState × TickAcc)
    (f : FlowEntry) (j : Nat) (hj : j ≠ f.flowId) :
    (processFlow numUe I p f).1.g_previousRxBytes j = p.1.g_previousRxBytes j := by
  obtain ⟨st, acc⟩ := p
  by_cases h17 : f.tuple.protocol = 17
  · by_cases hport : 5000 ≤ f.tuple.destinationPort ∧ f.tuple.destinationPort < 5000 + numUe
    · rw [processFlow_attributed numUe I st acc f h17 hport.1 hport.2]
      exact Function.update_noteq hj _ _
    · rw [processFlow_out_of_range numUe I (st, acc) f h17 hport]
  · rw [processFlow_not_udp numUe I (st, acc) f h17]

/-- C4 counterexample.  A flow whose cumulative `rxBytes` falls from 1000
to 500 between consecutive snapshots yields `deltaBytes = 2^64 - 500`
(the `uint64_t` subtraction wraps): the delta is NOT clamped to zero, so
the decrease is propagated into the metrics as a huge spike rather than
being suppressed with a diagnostic. -/
theorem negative_delta_wraps_not_clamped :
    (flowDeltas
        (processFlow 5 1 (zeroStatsState, initAcc)
            ⟨1, ⟨7, 40000, 1, 5000, 17⟩, 1000, 0, 0, 0, 0⟩).1
        ⟨1, ⟨7, 40000, 1, 5000, 17⟩, 500, 0, 0, 0, 0⟩).1 = 2 ^ 64 - 500 ∧
    (2 : Nat) ^ 64 - 500 ≠ 0 := by
  constructor
  · decide
  · decide

theorem processFlows_thr_nonneg_aux (numUe : Nat) (I : ℚ) (hI : 0 < I) (u : Nat)
    (stats : List FlowEntry) :
    ∀ p : StatsState × TickAcc, 0 ≤ p.2.ueThroughputKbps u →
      0 ≤ ((stats.foldl (processFlow numUe I) p).2.ueThroughputKbps u) := by
  induction stats with
  | nil => intro p h; simpa using h
  | cons f rest ih =>
    intro p h
    simp only [List.foldl_cons]
    apply ih
    rw [processFlow_thr]
    have hd : (0 : ℚ) ≤
        (if attributedTo numUe u f then ((flowDeltas p.1 f).1 : ℚ) * 8 / 1000 / I else 0) := by
      split
      · exact div_nonneg
          (div_nonneg (mul_nonneg (Nat.cast_nonneg _) (by norm_num)) (by norm_num)) hI.le
      · exact le_refl 0
    exact add_nonneg h hd

/-- C4 (amended).  The per-entity interval throughput reported by
`PeriodicStatsUpdate` is always non-negative (every flow contribution is
an unsigned delta scaled by positive constants and a positive tick
duration); however, a decrease in a flow's cumulative counters is NOT
clamped to zero with a diagnostic — the `uint64_t` subtraction wraps
modulo `2^64` and the wrapped value is propagated into the metrics. -/
theorem throughput_always_nonneg (numUe : Nat) (I : ℚ) (st : StatsState)
    (stats : List FlowEntry) (u : Nat) (hI : 0 < I) :
    0 ≤ (processFlows numUe I st stats).2.ueThroughputKbps u :=
  processFlows_thr_nonneg_aux numUe I hI u stats (st, initAcc) (le_refl 0)

/-- Witness for the amended C4 at a concrete tick. -/
theorem throughput_always_nonneg_witness :
    0 ≤ (processFlows 5 1 zeroStatsState
        [⟨1, ⟨7, 40000, 1, 5000, 17⟩, 1000, 0, 0, 0, 0⟩]).2.ueThroughputKbps 0 :=
  throughput_always_nonneg 5 1 zeroStatsState
    [⟨1, ⟨7, 40000, 1, 5000, 17⟩, 1000, 0, 0, 0, 0⟩] 0 (by norm_num)

theorem processFlows_loss_fold (numUe : Nat) (I : ℚ) (u : Nat) :
    ∀ (stats : List FlowEntry) (p : StatsState × TickAcc),
      ((stats.foldl (processFlow numUe I) p).2.uePacketLossRate u) =
        stats.foldl (fun v f => if attributedTo numUe u f then lossOfFlow f else v)
          (p.2.uePacketLossRate u) := by
  intro stats
  induction stats with
  | nil => intro p; rfl
  | cons f rest ih =>
    intro p
    simp only [List.foldl_cons]
    rw [ih, processFlow_loss]

theorem foldl_lastwins_getLast (numUe : Nat) (u : Nat) :
    ∀ (l : List FlowEntry) (c : ℚ),
      l.foldl (fun v f => if attributedTo numUe u f then lossOfFlow f else v) c =
        ((l.filter (attributedTo numUe u)).getLast?.map lossOfFlow).getD c := by
  intro l
  induction l with
  | nil => intro c; rfl
  | cons f rest ih =>
    intro c
    simp only [List.foldl_cons, List.filter_cons]
    cases hA : attributedTo numUe u f with
    | false =>
      simp only [Bool.false_eq_true, if_neg (by simp [hA] : ¬ attributedTo numUe u f = true)]
      exact ih c
    | true =>
      rw [if_pos rfl, if_pos rfl, ih (lossOfFlow f)]
      cases hfl : rest.filter (attributedTo numUe u) with
      | nil => simp
      | cons g gs =>
        cases hgl : (g :: gs).getLast? with
        | none => simp at hgl
        | some x => simp [List.getLast?_cons_cons, hgl]

/-- C7 counterexample.  Two UDP flows both destined to port 5000 (entity
0): flow 1 has `txPackets = 100`, `rxPackets = 50` (50 % loss) and flow 2
has `txPackets = 10`, `rxPackets = 10` (0 % loss).  The flow with the
largest `txPackets` is flow 1, so the claim requires the entity's
packet-loss value to be 50; the loop instead overwrites the entry once
per flow in ascending flow-id order, leaving the value of the LAST flow,
0. -/
theorem packetloss_not_largest_tx :
    (processFlows 5 1 zeroStatsState
        [⟨1, ⟨7, 40001, 1, 5000, 17⟩, 0, 100, 50, 0, 0⟩,
         ⟨2, ⟨7, 40002, 1, 5000, 17⟩, 0, 10, 10, 0, 0⟩]).2.uePacketLossRate 0 = 0 ∧
    lossOfFlow ⟨1, ⟨7, 40001, 1, 5000, 17⟩, 0, 100, 50, 0, 0⟩ = 50 ∧
    (10 : Nat) < 100 ∧ (0 : ℚ) ≠ 50 := by
  have hloss1 : lossOfFlow ⟨1, ⟨7, 40001, 1, 5000, 17⟩, 0, 100, 50, 0, 0⟩ = 50 := by
    unfold lossOfFlow
    rw [if_pos (by norm_num)]
    rw [show sub64 100 50 = 50 from sub64_of_le 100 50 (by norm_num) (by norm_num)]
    norm_num
  have hloss2 : lossOfFlow ⟨2, ⟨7, 40002, 1, 5000, 17⟩, 0, 10, 10, 0, 0⟩ = 0 := by
    unfold lossOfFlow
    rw [if_pos (by norm_num), sub64_self]
    norm_num
  refine ⟨?_, hloss1, by norm_num, by norm_num⟩
  unfold processFlows
  rw [processFlows_loss_fold]
  simp only [List.foldl_cons, List.foldl_nil,
    if_pos (show attributedTo 5 0 ⟨1, ⟨7, 40001, 1, 5000, 17⟩, 0, 100, 50, 0, 0⟩ = true by decide),
    if_pos (show attributedTo 5 0 ⟨2, ⟨7, 40002, 1, 5000, 17⟩, 0, 10, 10, 0, 0⟩ = true by decide)]
  exact hloss2

/-- C7 (amended).  Per flow, the packet-loss rate is computed from the
cumulative (not delta) counters as `(txPackets - rxPackets) / txPackets *
100` when `txPackets > 0` and 0 otherwise (`lossOfFlow`); when several
flows map to one entity, the entity's per-tick value is that of the LAST
attributed flow in the snapshot's ascending flow-id iteration order (each
flow overwrites the entry), not that of the flow with the largest
`txPackets`. -/
theorem packetloss_per_flow_last_wins (numUe : Nat) (I : ℚ) (st : StatsState)
    (stats : List FlowEntry) (u : Nat) :
    (processFlows numUe I st stats).2.uePacketLossRate u =
      ((stats.filter (attributedTo numUe u)).getLast?.map lossOfFlow).getD 0 := by
  unfold processFlows
  rw [processFlows_loss_fold, foldl_lastwins_getLast]
  rfl

theorem specThroughputSum_congr (numUe : Nat) (I : ℚ) (u : Nat)
    (st st2 : StatsState) (stats : List FlowEntry)
    (h : ∀ f ∈ stats, st2.g_previousRxBytes f.flowId = st.g_previousRxBytes f.flowId) :
    specThroughputSum numUe I st2 stats u = specThroughputSum numUe I st stats u := by
  unfold specThroughputSum
  congr 1
  apply List.map_congr_left
  intro f hf
  rw [h f (List.mem_of_mem_filter hf)]

theorem specThroughputSum_cons (numUe : Nat) (I : ℚ) (st : StatsState) (f : FlowEntry)
    (rest : List FlowEntry) (u : Nat) :
    specThroughputSum numUe I st (f :: rest) u =
      (if attributedTo numUe u f then
        (sub64 f.rxBytes (st.g_previousRxBytes f.flowId) : ℚ) * 8 / 1000 / I
       else 0) +
      specThroughputSum numUe I st rest u := by
  unfold specThroughputSum
  rw [List.filter_cons]
  cases hA : attributedTo numUe u f with
  | false => simp
  | true => simp

theorem processFlows_thr_sum_aux (numUe : Nat) (I : ℚ) (u : Nat) :
    ∀ (stats : List FlowEntry) (p : StatsState × TickAcc),
      (stats.map FlowEntry.flowId).Nodup →
      ((stats.foldl (processFlow numUe I) p).2.ueThroughputKbps u) =
        p.2.ueThroughputKbps u + specThroughputSum numUe I p.1 stats u := by
  intro stats
  induction stats with
  | nil =>
    intro p _
    simp [specThroughputSum]
  | cons f rest ih =>
    intro p hnodup
    simp only [List.map_cons, List.nodup_cons] at hnodup
    obtain ⟨hfnot, hrest⟩ := hnodup
    simp only [List.foldl_cons]
    rw [ih (processFlow numUe I p f) hrest]
    rw [processFlow_thr]
    rw [specThroughputSum_congr numUe I u p.1 (processFlow numUe I p f).1 rest ?hcongr]
    case hcongr =>
      intro g hg
      apply processFlow_prevRxBytes_other
      intro hEq
      exact hfnot (hEq ▸ List.mem_map_of_mem FlowEntry.flowId hg)
    rw [specThroughputSum_cons]
    have hfd : (flowDeltas p.1 f).1 = sub64 f.rxBytes (p.1.g_previousRxBytes f.flowId) := rfl
    rw [hfd, add_assoc]

theorem c3Run_state (k : Nat) : (c3Run k).1.g_previousRxBytes 1 = 1000 * k := by
  induction k with
  | zero => rfl
  | succ n ihn =>
    show (processFlows 5 1 (c3Run n).1 [c3Entry (n + 1)]).1.g_previousRxBytes 1 = 1000 * (n + 1)
    unfold processFlows
    simp only [List.foldl_cons, List.foldl_nil]
    rw [processFlow_attributed 5 1 (c3Run n).1 initAcc (c3Entry (n + 1)) rfl
      (le_refl 5000) (by dsimp only [c3Entry]; decide)]
    dsimp only [c3Entry]
    exact Function.update_same 1 (1000 * (n + 1)) ((c3Run n).1.g_previousRxBytes)

theorem c3_ten_ticks : ∀ k, k < 10 → (c3Run (k + 1)).2.ueThroughputKbps 0 = 8 := by
  intro k hk
  show (processFlows 5 1 (c3Run k).1 [c3Entry (k + 1)]).2.ueThroughputKbps 0 = 8
  unfold processFlows
  simp only [List.foldl_cons, List.foldl_nil]
  rw [processFlow_thr]
  rw [if_pos (show attributedTo 5 0 (c3Entry (k + 1)) = true by dsimp only [c3Entry, attributedTo]; decide)]
  have hδ : (flowDeltas (c3Run k).1 (c3Entry (k + 1))).1 = 1000 := by
    dsimp only [c3Entry, flowDeltas]
    rw [c3Run_state k]
    have hb : 1000 * (k + 1) < 2 ^ 64 := by
      have h1 : 1000 * (k + 1) ≤ 10000 := by omega
      exact lt_of_le_of_lt h1 (by norm_num)
    rw [sub64_of_le (1000 * (k + 1)) (1000 * k) (by omega) hb]
    omega
  rw [hδ]
  show (0 : ℚ) + ((1000 : Nat) : ℚ) * 8 / 1000 / 1 = 8
  norm_num

/-- C3.  Per tick and per entity, the reported throughput equals the sum
over the entity's attributed flows of `deltaReceivedBytes * 8 / 1000 /
tickDurationSeconds` (deltas taken against the previous-counters table at
the start of the tick; flow ids in a snapshot are distinct); and in the
10-tick scenario with a constant 1000-byte `rxBytes` increment per tick
and a 1-second tick, every tick reports exactly 8 Kbps for the attributed
entity. -/
theorem throughput_is_sum_of_deltas :
    (∀ (numUe : Nat) (I : ℚ) (st : StatsState) (stats : List FlowEntry) (u : Nat),
      (stats.map FlowEntry.flowId).Nodup →
      (processFlows numUe I st stats).2.ueThroughputKbps u =
        specThroughputSum numUe I st stats u) ∧
    (∀ k, k < 10 → (c3Run (k + 1)).2.ueThroughputKbps 0 = 8) := by
  constructor
  · intro numUe I st stats u hnodup
    unfold processFlows
    rw [processFlows_thr_sum_aux numUe I u stats (st, initAcc) hnodup]
    show (0 : ℚ) + specThroughputSum numUe I st stats u = specThroughputSum numUe I st stats u
    rw [zero_add]
  · exact c3_ten_ticks

/-- Witness for C3 at a concrete tick with distinct flow ids and at the
first tick of the 10-tick scenario. -/
theorem throughput_is_sum_of_deltas_witness :
    ((processFlows 5 1 zeroStatsState
        [⟨1, ⟨7, 40000, 1, 5000, 17⟩, 1000, 0, 0, 0, 0⟩]).2.ueThroughputKbps 0 =
      specThroughputSum 5 1 zeroStatsState
        [⟨1, ⟨7, 40000, 1, 5000, 17⟩, 1000, 0, 0, 0, 0⟩] 0) ∧
    (c3Run 1).2.ueThroughputKbps 0 = 8 :=
  ⟨throughput_is_sum_of_deltas.1 5 1 zeroStatsState
    [⟨1, ⟨7, 40000, 1, 5000, 17⟩, 1000, 0, 0, 0, 0⟩] 0 (by simp),
   throughput_is_sum_of_deltas.2 0 (by norm_num)⟩

theorem scanMin_spec :
    ∀ (l : List ℚ) (j : Nat) (m : ℚ) (i : Nat),
      ∃ n k, scanMin l j (some (m, i)) = some (n, k) ∧
        n ≤ m ∧
        (∀ x, x < l.length → n ≤ l.getD x 0) ∧
        ((n = m ∧ k = i) ∨
          (∃ x, x < l.length ∧ k = j + x ∧ l.getD x 0 = n ∧
            (∀ y, y < x → n < l.getD y 0) ∧ n < m)) := by
  intro l
  induction l with
  | nil =>
    intro j m i
    exact ⟨m, i, rfl, le_refl m, fun x hx => absurd hx (Nat.not_lt_zero x),
      Or.inl ⟨rfl, rfl⟩⟩
  | cons d rest ih =>
    intro j m i
    by_cases hd : d < m
    · obtain ⟨n, k, heq, hnm, hall, hcase⟩ := ih (j + 1) d j
      refine ⟨n, k, ?_, le_trans hnm (le_of_lt hd), ?_, ?_⟩
      · show scanMin (d :: rest) j (some (m, i)) = some (n, k)
        unfold scanMin
        rw [if_pos hd]
        exact heq
      · intro x hx
        cases x with
        | zero => simpa using hnm
        | succ y =>
          rw [List.getD_cons_succ]
          exact hall y (by simpa using hx)
      · cases hcase with
        | inl hl =>
          refine Or.inr ⟨0, Nat.succ_pos _, by omega, ?_, fun y hy => absurd hy (Nat.not_lt_zero y), ?_⟩
          · rw [List.getD_cons_zero]
            exact hl.1.symm
          · rw [hl.1]
            exact hd
        | inr hr =>
          obtain ⟨x, hx, hk, hval, hbefore, hless⟩ := hr
          refine Or.inr ⟨x + 1, by simpa using Nat.succ_lt_succ hx, by omega, ?_, ?_, lt_trans hless hd⟩
          · rw [List.getD_cons_succ]
            exact hval
          · intro y hy
            cases y with
            | zero =>
              rw [List.getD_cons_zero]
              exact hless
            | succ z =>
              rw [List.getD_cons_succ]
              exact hbefore z (by omega)
    · obtain ⟨n, k, heq, hnm, hall, hcase⟩ := ih (j + 1) m i
      have hmd : m ≤ d := not_lt.mp hd
      refine ⟨n, k, ?_, hnm, ?_, ?_⟩
      · show scanMin (d :: rest) j (some (m, i)) = some (n, k)
        unfold scanMin
        rw [if_neg hd]
        exact heq
      · intro x hx
        cases x with
        | zero =>
          rw [List.getD_cons_zero]
          exact le_trans hnm hmd
        | succ y =>
          rw [List.getD_cons_succ]
          exact hall y (by simpa using hx)
      · cases hcase with
        | inl hl => exact Or.inl hl
        | inr hr =>
          obtain ⟨x, hx, hk, hval, hbefore, hless⟩ := hr
          refine Or.inr ⟨x + 1, by simpa using Nat.succ_lt_succ hx, by omega, ?_, ?_, hless⟩
          · rw [List.getD_cons_succ]
            exact hval
          · intro y hy
            cases y with
            | zero =>
              rw [List.getD_cons_zero]
              exact lt_of_lt_of_le hless hmd
            | succ z =>
              rw [List.getD_cons_succ]
              exact hbefore z (by omega)

theorem closestEnb_spec (dists : List ℚ) (h : dists ≠ []) :
    ∃ n k, closestEnb dists = some (n, k) ∧ k < dists.length ∧ dists.getD k 0 = n ∧
      (∀ x, x < dists.length → n ≤ dists.getD x 0) ∧
      (∀ y, y < k → n < dists.getD y 0) := by
  match dists, h with
  | d :: rest, _ =>
    have h0 : closestEnb (d :: rest) = scanMin rest 1 (some (d, 0)) := rfl
    obtain ⟨n, k, heq, hnm, hall, hcase⟩ := scanMin_spec rest 1 d 0
    rw [h0]
    refine ⟨n, k, heq, ?_, ?_, ?_, ?_⟩
    · cases hcase with
      | inl hl =>
        rw [hl.2]
        exact Nat.succ_pos _
      | inr hr =>
        obtain ⟨x, hx, hk, _, _, _⟩ := hr
        simp only [List.length_cons]
        omega
    · cases hcase with
      | inl hl =>
        rw [hl.2, List.getD_cons_zero]
        exact hl.1.symm
      | inr hr =>
        obtain ⟨x, hx, hk, hval, _, _⟩ := hr
        have hk1 : k = x + 1 := by omega
        rw [hk1, List.getD_cons_succ]
        exact hval
    · intro x hx
      cases x with
      | zero =>
        rw [List.getD_cons_zero]
        exact hnm
      | succ y =>
        rw [List.getD_cons_succ]
        exact hall y (by simpa using hx)
    · intro y hy
      cases hcase with
      | inl hl =>
        rw [hl.2] at hy
        exact absurd hy (Nat.not_lt_zero y)
      | inr hr =>
        obtain ⟨x, hx, hk, hval, hbefore, hless⟩ := hr
        cases y with
        | zero =>
          rw [List.getD_cons_zero]
          exact hless
        | succ z =>
          rw [List.getD_cons_succ]
          exact hbefore z (by omega)

/-- C8.  For every entity position and non-empty ordered cell list, the
argmin loop selects an index `k` whose (squared) distance `n` is minimal
over the whole list while every index before `k` has strictly larger
distance: on ties the lowest-indexed cell wins, and the selection is a
function of the position and the ordered cell list. -/
theorem nearest_cell_lowest_index_on_tie (pos : Point) (cells : List Point)
    (h : cells ≠ []) :
    ∃ n k, closestEnb (cells.map (dist2 pos)) = some (n, k) ∧
      k < cells.length ∧
      (cells.map (dist2 pos)).getD k 0 = n ∧
      (∀ x, x < cells.length → n ≤ (cells.map (dist2 pos)).getD x 0) ∧
      (∀ y, y < k → n < (cells.map (dist2 pos)).getD y 0) := by
  have hne : cells.map (dist2 pos) ≠ [] := fun hc => h (List.map_eq_nil_iff.mp hc)
  obtain ⟨n, k, heq, hk, hval, hall, hbefore⟩ := closestEnb_spec _ hne
  rw [List.length_map] at hk hall
  exact ⟨n, k, heq, hk, hval, hall, hbefore⟩

/-- Witness for C8 at a concrete position and two concrete cells. -/
theorem nearest_cell_lowest_index_on_tie_witness :
    ∃ n k,
      closestEnb ((([((0 : ℚ), (0 : ℚ), (0 : ℚ)), ((100 : ℚ), (0 : ℚ), (0 : ℚ))] : List Point)).map
          (dist2 ((10 : ℚ), (0 : ℚ), (0 : ℚ)))) = some (n, k) ∧
      k < 2 ∧
      ((([((0 : ℚ), (0 : ℚ), (0 : ℚ)), ((100 : ℚ), (0 : ℚ), (0 : ℚ))] : List Point)).map
          (dist2 ((10 : ℚ), (0 : ℚ), (0 : ℚ)))).getD k 0 = n ∧
      (∀ x, x < 2 → n ≤ ((([((0 : ℚ), (0 : ℚ), (0 : ℚ)), ((100 : ℚ), (0 : ℚ), (0 : ℚ))] : List Point)).map
          (dist2 ((10 : ℚ), (0 : ℚ), (0 : ℚ)))).getD x 0) ∧
      (∀ y, y < k → n < ((([((0 : ℚ), (0 : ℚ), (0 : ℚ)), ((100 : ℚ), (0 : ℚ), (0 : ℚ))] : List Point)).map
          (dist2 ((10 : ℚ), (0 : ℚ), (0 : ℚ)))).getD y 0) :=
  nearest_cell_lowest_index_on_tie ((10 : ℚ), (0 : ℚ), (0 : ℚ))
    [((0 : ℚ), (0 : ℚ), (0 : ℚ)), ((100 : ℚ), (0 : ℚ), (0 : ℚ))] (List.cons_ne_nil _ _)

theorem c2_dists_eval :
    ([((0 : ℚ), (0 : ℚ), (0 : ℚ)), ((100 : ℚ), (0 : ℚ), (0 : ℚ))] : List Point).map
      (dist2 ((10 : ℚ), (0 : ℚ), (0 : ℚ))) = [(100 : ℚ), 8100] := by
  show [dist2 ((10 : ℚ), (0 : ℚ), (0 : ℚ)) ((0 : ℚ), (0 : ℚ), (0 : ℚ)),
      dist2 ((10 : ℚ), (0 : ℚ), (0 : ℚ)) ((100 : ℚ), (0 : ℚ), (0 : ℚ))] = [(100 : ℚ), 8100]
  unfold dist2
  norm_num

theorem c2_closest_eval : closestEnb [(100 : ℚ), 8100] = some (100, 0) := by
  have s1 : closestEnb [(100 : ℚ), 8100] =
      if (8100 : ℚ) < 100 then scanMin [] 2 (some (8100, 1)) else scanMin [] 2 (some (100, 0)) :=
    rfl
  rw [s1, if_neg (by norm_num : ¬ (8100 : ℚ) < 100)]
  rfl

/-- C2.  The handover decision triggers exactly when the argmin cell
differs from the entity's currently attached cell AND the minimal
(squared) distance is below the (squared) threshold; concretely, with
cells at (0,0) and (100,0), threshold 50 m and an entity at (10,0)
attached to the cell at (100,0) (index 1), the evaluation triggers a
handover to the cell at (0,0) (index 0), since distance 10 < 50. -/
theorem handover_trigger_iff :
    (∀ (entityId : Nat) (position : Point) (cells : List Point)
        (attachment : Nat → Nat) (th minD : ℚ) (best : Nat),
      closestEnb (cells.map (dist2 position)) = some (minD, best) →
      ((Evaluate entityId position cells attachment th).1 = true ↔
        (best ≠ attachment entityId ∧ minD < th * th))) ∧
    Evaluate 0 ((10 : ℚ), (0 : ℚ), (0 : ℚ))
      [((0 : ℚ), (0 : ℚ), (0 : ℚ)), ((100 : ℚ), (0 : ℚ), (0 : ℚ))] (fun _ => 1) 50 =
      (true, 0) := by
  constructor
  · intro ent pos cells att th minD best heq
    unfold Evaluate
    rw [heq]
    simp
  · unfold Evaluate
    rw [c2_dists_eval, c2_closest_eval]
    norm_num

/-- Witness for C2's trigger-condition conjunct at a concrete input. -/
theorem handover_trigger_iff_witness :
    (Evaluate 0 ((10 : ℚ), (0 : ℚ), (0 : ℚ))
        [((0 : ℚ), (0 : ℚ), (0 : ℚ)), ((100 : ℚ), (0 : ℚ), (0 : ℚ))] (fun _ => 1) 50).1 = true ↔
      ((0 : Nat) ≠ 1 ∧ (100 : ℚ) < 50 * 50) :=
  handover_trigger_iff.1 0 ((10 : ℚ), (0 : ℚ), (0 : ℚ))
    [((0 : ℚ), (0 : ℚ), (0 : ℚ)), ((100 : ℚ), (0 : ℚ), (0 : ℚ))] (fun _ => 1) 50 100 0
    (by rw [c2_dists_eval, c2_closest_eval])

theorem applyHandoverEvents_keeps :
    ∀ (events : List HandoverEvent) (st : SimState),
      (applyHandoverEvents st events).g_currentTime = st.g_currentTime ∧
      (applyHandoverEvents st events).g_handoverStartPlot = st.g_handoverStartPlot ∧
      (applyHandoverEvents st events).g_handoverSuccessPlot = st.g_handoverSuccessPlot ∧
      (applyHandoverEvents st events).g_handoverFailurePlot = st.g_handoverFailurePlot ∧
      (applyHandoverEvents st events).g_timePlot = st.g_timePlot ∧
      (applyHandoverEvents st events).g_avgLatencyPlot = st.g_avgLatencyPlot ∧
      (applyHandoverEvents st events).g_avgThroughputPlot = st.g_avgThroughputPlot ∧
      (applyHandoverEvents st events).g_ueThroughputPlot = st.g_ueThroughputPlot ∧
      (applyHandoverEvents st events).g_uePacketLossPlot = st.g_uePacketLossPlot ∧
      (applyHandoverEvents st events).g_ueJitterPlot = st.g_ueJitterPlot ∧
      (applyHandoverEvents st events).flowState = st.flowState := by
  intro events
  induction events with
  | nil =>
    intro st
    exact ⟨rfl, rfl, rfl, rfl, rfl, rfl, rfl, rfl, rfl, rfl, rfl⟩
  | cons e rest ih =>
    intro st
    have h : applyHandoverEvents st (e :: rest) =
        applyHandoverEvents (HandoverCallback st e) rest := rfl
    rw [h]
    cases e <;> exact ih (HandoverCallback st _)

theorem applyHandoverEvents_startCount :
    ∀ (events : List HandoverEvent) (st : SimState),
      (applyHandoverEvents st events).g_handoverStartCount =
        st.g_handoverStartCount + events.count HandoverEvent.handoverStart := by
  intro events
  induction events with
  | nil => intro st; simp [applyHandoverEvents]
  | cons e rest ih =>
    intro st
    have h : applyHandoverEvents st (e :: rest) =
        applyHandoverEvents (HandoverCallback st e) rest := rfl
    rw [h, ih, List.count_cons]
    cases e <;> (simp [HandoverCallback]; try omega)

theorem applyHandoverEvents_successCount :
    ∀ (events : List HandoverEvent) (st : SimState),
      (applyHandoverEvents st events).g_handoverSuccessCount =
        st.g_handoverSuccessCount + events.count HandoverEvent.handoverSuccess := by
  intro events
  induction events with
  | nil => intro st; simp [applyHandoverEvents]
  | cons e rest ih =>
    intro st
    have h : applyHandoverEvents st (e :: rest) =
        applyHandoverEvents (HandoverCallback st e) rest := rfl
    rw [h, ih, List.count_cons]
    cases e <;> (simp [HandoverCallback]; try omega)

theorem applyHandoverEvents_failureCount :
    ∀ (events : List HandoverEvent) (st : SimState),
      (applyHandoverEvents st events).g_handoverFailureCount =
        st.g_handoverFailureCount + events.count HandoverEvent.handoverFailure := by
  intro events
  induction events with
  | nil => intro st; simp [applyHandoverEvents]
  | cons e rest ih =>
    intro st
    have h : applyHandoverEvents st (e :: rest) =
        applyHandoverEvents (HandoverCallback st e) rest := rfl
    rw [h, ih, List.count_cons]
    cases e <;> (simp [HandoverCallback]; try omega)

theorem PSU_startPlot (numUe : Nat) (I : ℚ) (st : SimState) (stats : List FlowEntry) :
    (PeriodicStatsUpdate numUe I st stats).g_handoverStartPlot =
      st.g_handoverStartPlot ++ [st.g_handoverStartCount] := rfl

theorem PSU_successPlot (numUe : Nat) (I : ℚ) (st : SimState) (stats : List FlowEntry) :
    (PeriodicStatsUpdate numUe I st stats).g_handoverSuccessPlot =
      st.g_handoverSuccessPlot ++ [st.g_handoverSuccessCount] := rfl

theorem PSU_failurePlot (numUe : Nat) (I : ℚ) (st : SimState) (stats : List FlowEntry) :
    (PeriodicStatsUpdate numUe I st stats).g_handoverFailurePlot =
      st.g_handoverFailurePlot ++ [st.g_handoverFailureCount] := rfl

theorem PSU_startCount (numUe : Nat) (I : ℚ) (st : SimState) (stats : List FlowEntry) :
    (PeriodicStatsUpdate numUe I st stats).g_handoverStartCount = 0 := rfl

theorem PSU_successCount (numUe : Nat) (I : ℚ) (st : SimState) (stats : List FlowEntry) :
    (PeriodicStatsUpdate numUe I st stats).g_handoverSuccessCount = 0 := rfl

theorem PSU_failureCount (numUe : Nat) (I : ℚ) (st : SimState) (stats : List FlowEntry) :
    (PeriodicStatsUpdate numUe I st stats).g_handoverFailureCount = 0 := rfl

theorem PSU_currentTime (numUe : Nat) (I : ℚ) (st : SimState) (stats : List FlowEntry) :
    (PeriodicStatsUpdate numUe I st stats).g_currentTime = st.g_currentTime + I := rfl

theorem PSU_timePlot (numUe : Nat) (I : ℚ) (st : SimState) (stats : List FlowEntry) :
    (PeriodicStatsUpdate numUe I st stats).g_timePlot =
      st.g_timePlot ++ [st.g_currentTime + I] := rfl

theorem runTicks_startPlot (numUe : Nat) (I : ℚ) :
    ∀ (inputs : List (List HandoverEvent × List FlowEntry)) (st : SimState),
      (runTicks numUe I st inputs).g_handoverStartPlot =
        st.g_handoverStartPlot ++
          bucketCounts HandoverEvent.handoverStart st.g_handoverStartCount inputs := by
  intro inputs
  induction inputs with
  | nil => intro st; simp [runTicks, bucketCounts]
  | cons p rest ih =>
    intro st
    obtain ⟨evs, stats⟩ := p
    have h : runTicks numUe I st ((evs, stats) :: rest) =
        runTicks numUe I (PeriodicStatsUpdate numUe I (applyHandoverEvents st evs) stats) rest :=
      rfl
    rw [h, ih, PSU_startPlot, PSU_startCount,
      (applyHandoverEvents_keeps evs st).2.1, applyHandoverEvents_startCount]
    show (st.g_handoverStartPlot ++ [st.g_handoverStartCount + evs.count _]) ++ bucketCounts _ 0 rest = _
    rw [List.append_assoc, List.singleton_append]
    rfl

theorem runTicks_successPlot (numUe : Nat) (I : ℚ) :
    ∀ (inputs : List (List HandoverEvent × List FlowEntry)) (st : SimState),
      (runTicks numUe I st inputs).g_handoverSuccessPlot =
        st.g_handoverSuccessPlot ++
          bucketCounts HandoverEvent.handoverSuccess st.g_handoverSuccessCount inputs := by
  intro inputs
  induction inputs with
  | nil => intro st; simp [runTicks, bucketCounts]
  | cons p rest ih =>
    intro st
    obtain ⟨evs, stats⟩ := p
    have h : runTicks numUe I st ((evs, stats) :: rest) =
        runTicks numUe I (PeriodicStatsUpdate numUe I (applyHandoverEvents st evs) stats) rest :=
      rfl
    rw [h, ih, PSU_successPlot, PSU_successCount,
      (applyHandoverEvents_keeps evs st).2.2.1, applyHandoverEvents_successCount]
    show (st.g_handoverSuccessPlot ++ [st.g_handoverSuccessCount + evs.count _]) ++ bucketCounts _ 0 rest = _
    rw [List.append_assoc, List.singleton_append]
    rfl

theorem runTicks_failurePlot (numUe : Nat) (I : ℚ) :
    ∀ (inputs : List (List HandoverEvent × List FlowEntry)) (st : SimState),
      (runTicks numUe I st inputs).g_handoverFailurePlot =
        st.g_handoverFailurePlot ++
          bucketCounts HandoverEvent.handoverFailure st.g_handoverFailureCount inputs := by
  intro inputs
  induction inputs with
  | nil => intro st; simp [runTicks, bucketCounts]
  | cons p rest ih =>
    intro st
    obtain ⟨evs, stats⟩ := p
    have h : runTicks numUe I st ((evs, stats) :: rest) =
        runTicks numUe I (PeriodicStatsUpdate numUe I (applyHandoverEvents st evs) stats) rest :=
      rfl
    rw [h, ih, PSU_failurePlot, PSU_failureCount,
      (applyHandoverEvents_keeps evs st).2.2.2.1, applyHandoverEvents_failureCount]
    show (st.g_handoverFailurePlot ++ [st.g_handoverFailureCount + evs.count _]) ++ bucketCounts _ 0 rest = _
    rw [List.append_assoc, List.singleton_append]
    rfl

theorem bucketCounts_zero (e : HandoverEvent) :
    ∀ (inputs : List (List HandoverEvent × List FlowEntry)),
      bucketCounts e 0 inputs = inputs.map (fun p => p.1.count e) := by
  intro inputs
  induction inputs with
  | nil => rfl
  | cons p rest ih =>
    show (0 + p.1.count e) :: bucketCounts e 0 rest = _
    rw [Nat.zero_add, ih]
    rfl

/-- C9.  Starting from the initial telemetry state, every executed tick
appends the current interval handover counters to the three count series
and resets them to zero, so the value recorded at tick `i` equals the
number of start/success/failure callback events delivered since the
previous tick (since simulation start for the first tick). -/
theorem handover_counts_per_interval (numUe : Nat) (I : ℚ)
    (inputs : List (List HandoverEvent × List FlowEntry)) :
    (runTicks numUe I initialSimState inputs).g_handoverStartPlot =
      inputs.map (fun p => p.1.count HandoverEvent.handoverStart) ∧
    (runTicks numUe I initialSimState inputs).g_handoverSuccessPlot =
      inputs.map (fun p => p.1.count HandoverEvent.handoverSuccess) ∧
    (runTicks numUe I initialSimState inputs).g_handoverFailurePlot =
      inputs.map (fun p => p.1.count HandoverEvent.handoverFailure) := by
  refine ⟨?_, ?_, ?_⟩
  · rw [runTicks_startPlot numUe I inputs initialSimState]
    show [] ++ bucketCounts _ 0 inputs = _
    rw [List.nil_append, bucketCounts_zero]
  · rw [runTicks_successPlot numUe I inputs initialSimState]
    show [] ++ bucketCounts _ 0 inputs = _
    rw [List.nil_append, bucketCounts_zero]
  · rw [runTicks_failurePlot numUe I inputs initialSimState]
    show [] ++ bucketCounts _ 0 inputs = _
    rw [List.nil_append, bucketCounts_zero]

theorem PSU_avgLatencyPlot_length (numUe : Nat) (I : ℚ) (st : SimState)
    (stats : List FlowEntry) :
    (PeriodicStatsUpdate numUe I st stats).g_avgLatencyPlot.length =
      st.g_avgLatencyPlot.length + 1 := by
  unfold PeriodicStatsUpdate
  dsimp only
  rw [List.length_append]
  rfl

theorem PSU_avgThroughputPlot_length (numUe : Nat) (I : ℚ) (st : SimState)
    (stats : List FlowEntry) :
    (PeriodicStatsUpdate numUe I st stats).g_avgThroughputPlot.length =
      st.g_avgThroughputPlot.length + 1 := by
  unfold PeriodicStatsUpdate
  dsimp only
  rw [List.length_append]
  rfl

theorem PSU_ueThroughputPlot_length (numUe : Nat) (I : ℚ) (st : SimState)
    (stats : List FlowEntry) (i : Nat) (hi : i < numUe) :
    ((PeriodicStatsUpdate numUe I st stats).g_ueThroughputPlot i).length =
      (st.g_ueThroughputPlot i).length + 1 := by
  unfold PeriodicStatsUpdate
  dsimp only
  rw [if_pos hi, List.length_append]
  rfl

theorem PSU_uePacketLossPlot_length (numUe : Nat) (I : ℚ) (st : SimState)
    (stats : List FlowEntry) (i : Nat) (hi : i < numUe) :
    ((PeriodicStatsUpdate numUe I st stats).g_uePacketLossPlot i).length =
      (st.g_uePacketLossPlot i).length + 1 := by
  unfold PeriodicStatsUpdate
  dsimp only
  rw [if_pos hi, List.length_append]
  rfl

theorem PSU_ueJitterPlot_length (numUe : Nat) (I : ℚ) (st : SimState)
    (stats : List FlowEntry) (i : Nat) (hi : i < numUe) :
    ((PeriodicStatsUpdate numUe I st stats).g_ueJitterPlot i).length =
      (st.g_ueJitterPlot i).length + 1 := by
  unfold PeriodicStatsUpdate
  dsimp only
  rw [if_pos hi, List.length_append]
  rfl

theorem applyHandoverEvents_inv (numUe : Nat) (I : ℚ) (n : Nat) (st : SimState)
    (evs : List HandoverEvent) (h : SeriesInv numUe I n st) :
    SeriesInv numUe I n (applyHandoverEvents st evs) := by
  have k := applyHandoverEvents_keeps evs st
  unfold SeriesInv at h ⊢
  rw [k.1, k.2.2.2.2.1, k.2.2.2.2.2.1, k.2.2.2.2.2.2.1, k.2.1, k.2.2.1, k.2.2.2.1,
    k.2.2.2.2.2.2.2.1, k.2.2.2.2.2.2.2.2.1, k.2.2.2.2.2.2.2.2.2.1]
  exact h

theorem PSU_inv (numUe : Nat) (I : ℚ) (n : Nat) (st : SimState) (stats : List FlowEntry)
    (h : SeriesInv numUe I n st) :
    SeriesInv numUe I (n + 1) (PeriodicStatsUpdate numUe I st stats) := by
  obtain ⟨ht, htp, hltp, hlat, hthr, hs, hsu, hfa, hue⟩ := h
  refine ⟨?_, ?_, ?_, ?_, ?_, ?_, ?_, ?_, ?_⟩
  · rw [PSU_currentTime, ht]
    push_cast
    ring
  · rw [PSU_timePlot, htp, ht, List.range_succ, List.map_append]
    have he : (n : ℚ) * I + I = ((n : ℚ) + 1) * I := by ring
    rw [he]
    rfl
  · rw [PSU_timePlot, List.length_append, hltp]
    rfl
  · rw [PSU_avgLatencyPlot_length, hlat]
  · rw [PSU_avgThroughputPlot_length, hthr]
  · rw [PSU_startPlot, List.length_append, hs]
    rfl
  · rw [PSU_successPlot, List.length_append, hsu]
    rfl
  · rw [PSU_failurePlot, List.length_append, hfa]
    rfl
  · intro i hi
    obtain ⟨h1, h2, h3⟩ := hue i hi
    exact ⟨by rw [PSU_ueThroughputPlot_length numUe I st stats i hi, h1],
      by rw [PSU_uePacketLossPlot_length numUe I st stats i hi, h2],
      by rw [PSU_ueJitterPlot_length numUe I st stats i hi, h3]⟩

theorem RunPeriodicStats_inv (numUe : Nat) (I simTime : ℚ) :
    ∀ (inputs : List (List HandoverEvent × List FlowEntry)) (st : SimState) (n : Nat),
      SeriesInv numUe I n st → (n = 0 ∨ (n : ℚ) * I ≤ simTime) →
      ∃ n2, n ≤ n2 ∧
        SeriesInv numUe I n2 (RunPeriodicStats numUe I simTime st inputs) ∧
        (n2 = 0 ∨ (n2 : ℚ) * I ≤ simTime) := by
  intro inputs
  induction inputs with
  | nil =>
    intro st n h hg
    exact ⟨n, le_refl n, h, hg⟩
  | cons p rest ih =>
    intro st n h hg
    obtain ⟨evs, stats⟩ := p
    have hrun : RunPeriodicStats numUe I simTime st ((evs, stats) :: rest) =
        if st.g_currentTime + I ≤ simTime then
          RunPeriodicStats numUe I simTime
            (PeriodicStatsUpdate numUe I (applyHandoverEvents st evs) stats) rest
        else st := rfl
    rw [hrun]
    by_cases hcond : st.g_currentTime + I ≤ simTime
    · rw [if_pos hcond]
      have hinv2 : SeriesInv numUe I (n + 1)
          (PeriodicStatsUpdate numUe I (applyHandoverEvents st evs) stats) :=
        PSU_inv numUe I n _ stats (applyHandoverEvents_inv numUe I n st evs h)
      have hg2 : ((n + 1 : Nat) : ℚ) * I ≤ simTime := by
        have hct : st.g_currentTime = (n : ℚ) * I := h.1
        rw [hct] at hcond
        push_cast
        linarith
      obtain ⟨n2, hle, hinv3, hg3⟩ := ih _ (n + 1) hinv2 (Or.inr hg2)
      exact ⟨n2, le_trans (Nat.le_succ n) hle, hinv3, hg3⟩
    · rw [if_neg hcond]
      exact ⟨n, le_refl n, h, hg⟩

theorem initialSimState_inv (numUe : Nat) (I : ℚ) :
    SeriesInv numUe I 0 initialSimState := by
  refine ⟨by simp [initialSimState], rfl, rfl, rfl, rfl, rfl, rfl, rfl, ?_⟩
  intro i _
  exact ⟨rfl, rfl, rfl⟩

/-- C10.  After any guarded telemetry run from the initial state there is
an `n` (the number of completed ticks) such that every time-series vector
has exactly `n` entries (the timestamp, average-latency,
average-throughput and three handover-count vectors, and every per-entity
throughput / packet-loss / jitter vector), the timestamps are the strictly
increasing sequence `statsInterval, 2 * statsInterval, ...,
n * statsInterval`, a tick runs only while its time does not exceed
`simTime`, and `n` is bounded by `⌊simTime / statsInterval⌋`. -/
theorem time_series_aligned_and_bounded (numUe : Nat) (I simTime : ℚ)
    (inputs : List (List HandoverEvent × List FlowEntry))
    (hI : 0 < I) (hT : 0 ≤ simTime) :
    ∃ n, SeriesInv numUe I n (RunPeriodicStats numUe I simTime initialSimState inputs) ∧
      (RunPeriodicStats numUe I simTime initialSimState inputs).g_timePlot.Pairwise (· < ·) ∧
      (n : ℚ) * I ≤ simTime ∧
      n ≤ (⌊simTime / I⌋).toNat := by
  obtain ⟨n, _, hinv, hg⟩ := RunPeriodicStats_inv numUe I simTime inputs initialSimState 0
    (initialSimState_inv numUe I) (Or.inl rfl)
  have hle : (n : ℚ) * I ≤ simTime := by
    cases hg with
    | inl h0 =>
      rw [h0]
      simpa using hT
    | inr hh => exact hh
  refine ⟨n, hinv, ?_, hle, ?_⟩
  · rw [hinv.2.1]
    refine List.Pairwise.map _ ?_ (List.pairwise_lt_range n)
    intro a b hab
    have hab1 : ((a : ℚ) + 1) < ((b : ℚ) + 1) := by
      exact_mod_cast add_lt_add_right (by exact_mod_cast hab : (a : ℚ) < (b : ℚ)) 1
    exact mul_lt_mul_of_pos_right hab1 hI
  · have hq : (n : ℚ) ≤ simTime / I := (le_div_iff₀ hI).mpr hle
    have hz : ((n : Nat) : ℤ) ≤ ⌊simTime / I⌋ := by
      rw [Int.le_floor]
      push_cast
      exact hq
    have hnn : (0 : ℤ) ≤ ⌊simTime / I⌋ := le_trans (by positivity) hz
    exact (Int.le_toNat hnn).mpr hz

/-- Witness for C10 at a concrete run of two offered ticks. -/
theorem time_series_aligned_and_bounded_witness :
    ∃ n, SeriesInv 1 1 n (RunPeriodicStats 1 1 2 initialSimState [([], []), ([], [])]) ∧
      (RunPeriodicStats 1 1 2 initialSimState [([], []), ([], [])]).g_timePlot.Pairwise (· < ·) ∧
      (n : ℚ) * 1 ≤ 2 ∧
      n ≤ (⌊(2 : ℚ) / 1⌋).toNat :=
  time_series_aligned_and_bounded 1 1 2 [([], []), ([], [])] (by norm_num) (by norm_num)
